import Mathlib

/-!
Verification of the chaind postgresql persistence layer
(`services/chaindb/postgresql/{chainspec,genesis,executionpayload}.go`).

Go strings are modelled as `List Char`, byte slices as `List Nat` (each
element a byte value), `*big.Int` as `Int`, and the database tables as
association lists keyed by the relevant column.  Fallible Go calls
(`hex.DecodeString`, `strconv.ParseInt`, `strconv.ParseUint`) are modelled
as `Option`-returning functions with the exact acceptance and range rules
of the Go standard library for the call sites used here (base 10, bit
size 64).
-/

/-- Go `string`, modelled as its list of characters. -/
abbrev GoStr := List Char

/-- Go `[]byte` / fixed byte arrays, modelled as a list of byte values. -/
abbrev Bytes := List Nat

/-- Go `strings.HasPrefix pfx s` (argument order: pattern first). -/
def goHasPfx : GoStr → GoStr → Bool
  | [], _ => true
  | _ :: _, [] => false
  | p :: ps, c :: cs => p == c && goHasPfx ps cs

/-- Go `strings.HasSuffix sfx s` (argument order: pattern first). -/
def goHasSfx (sfx s : GoStr) : Bool := goHasPfx sfx.reverse s.reverse

/-- Go `strings.TrimPrefix s pfx`: drop `pfx` when present, else return `s`
unchanged (the pattern is stripped at most once). -/
def goTrimPfx (pfx s : GoStr) : GoStr :=
  if goHasPfx pfx s then s.drop pfx.length else s

/-- Value of one hexadecimal character, as accepted by Go
`encoding/hex.fromHexChar` (digits, lowercase and uppercase letters). -/
def hexCharVal : Char → Option Nat :=
  fun c =>
    if '0' ≤ c ∧ c ≤ '9' then some (c.toNat - '0'.toNat)
    else if 'a' ≤ c ∧ c ≤ 'f' then some (10 + c.toNat - 'a'.toNat)
    else if 'A' ≤ c ∧ c ≤ 'F' then some (10 + c.toNat - 'A'.toNat)
    else none

/-- Go `hex.DecodeString`: characters are consumed two at a time, each pair
yielding one byte; an odd-length input or a non-hex character is an error
(modelled as `none`). -/
def hexDecode : GoStr → Option Bytes
  | [] => some []
  | [_] => none
  | c1 :: c2 :: rest =>
    match hexCharVal c1, hexCharVal c2, hexDecode rest with
    | some hi, some lo, some bs => some ((16 * hi + lo) :: bs)
    | _, _, _ => none

/-- Decimal value of a digit character (used by the `strconv` parsers). -/
def decCharVal (c : Char) : Nat := c.toNat - '0'.toNat

/-- Go `strconv.ParseUint(s, 10, 64)`: no sign permitted, at least one
digit, all characters decimal digits, value below `2^64`; anything else
(including overflow) is an error, modelled as `none`. -/
def parseUint64 (s : GoStr) : Option Nat :=
  if s = [] then none
  else if s.all Char.isDigit then
    let n := s.foldl (fun a c => 10 * a + decCharVal c) 0
    if n < 2 ^ 64 then some n else none
  else none

/-- The sign handling of Go `strconv.ParseInt`: strip one leading `'+'`
or `'-'` and report whether the value is negated. -/
def strSign : GoStr → Bool × GoStr
  | [] => (false, [])
  | c :: rest =>
    if c = '-' then (true, rest)
    else if c = '+' then (false, rest)
    else (false, c :: rest)

/-- Go `strconv.ParseInt(s, 10, 64)`: an optional single leading sign,
then a nonempty run of decimal digits, with the signed 64-bit range
check (`-2^63 ≤ v ≤ 2^63 - 1`); anything else is an error, modelled as
`none`. -/
def parseInt64 (s : GoStr) : Option Int :=
  let signAndDigits := strSign s
  let neg := signAndDigits.1
  let ds := signAndDigits.2
  if ds = [] then none
  else if ds.all Char.isDigit then
    let n := ds.foldl (fun a c => 10 * a + decCharVal c) 0
    if n < 2 ^ 64 then
      if neg then
        if n ≤ 2 ^ 63 then some (-(n : Int)) else none
      else
        if n < 2 ^ 63 then some ((n : Int)) else none
    else none
  else none

/-- `strconv.ParseInt` succeeding with a non-zero value, i.e. the combined
condition `err == nil && intVal != 0` used by the decoder's time rule. -/
def parseNonZeroInt64 (s : GoStr) : Option Int :=
  match parseInt64 s with
  | some i => if i = 0 then none else some i
  | none => none

/-- `strconv.ParseUint` succeeding with a non-zero value, i.e. the combined
condition `err == nil && intVal != 0` used by the decoder's duration and
integer rules. -/
def parseNonZeroUint64 (s : GoStr) : Option Nat :=
  match parseUint64 s with
  | some n => if n = 0 then none else some n
  | none => none

/-- Go `copy(dst[:], src)` into a zero-initialised array of length `n`:
the first `min n src.length` bytes of `src`, then zero fill. -/
def copyBytes (n : Nat) (src : Bytes) : Bytes :=
  src.take n ++ List.replicate (n - src.length) 0

/-- The key pattern `"DOMAIN_"` of the decoder's domain rule. -/
def domainPfx : GoStr := "DOMAIN_".toList

/-- The key pattern `"_FORK_VERSION"` of the fork-version rule. -/
def forkVersionSfx : GoStr := "_FORK_VERSION".toList

/-- The value pattern `"0x"` of the hex-string rule. -/
def hexPfx : GoStr := "0x".toList

/-- The key pattern `"_TIME"` of the time rule. -/
def timeSfx : GoStr := "_TIME".toList

/-- The key pattern `"SECONDS_PER_"` of the duration rule. -/
def secondsPerPfx : GoStr := "SECONDS_PER_".toList

/-- The key pattern `"_DELAY"` of the duration rule. -/
def delaySfx : GoStr := "_DELAY".toList

/-- The literal stored string `"0"` of the integer-zero rule. -/
def zeroStr : GoStr := "0".toList

/-- Two's-complement reading of a natural number as a signed 64-bit
value: reduce mod `2^64`, then subtract `2^64` when the high bit is
set. -/
def wrapInt64 (n : Nat) : Int :=
  if n % 2 ^ 64 < 2 ^ 63 then ((n % 2 ^ 64 : Nat) : Int)
  else ((n % 2 ^ 64 : Nat) : Int) - 2 ^ 64

/-- Go `time.Duration(intVal) * time.Second`: the parsed `uint64` is
converted to an int64 `time.Duration` and multiplied by `10^9`
nanoseconds, both steps with int64 wraparound, so the resulting signed
nanosecond count is `intVal * 10^9` wrapped mod `2^64`; it equals
`intVal` whole seconds only when `intVal * 10^9` fits in int64. -/
def goSecondsToDuration (intVal : Nat) : Int :=
  wrapInt64 (intVal * 1000000000)

/-- The dynamically-typed result of decoding a stored chain-spec value:
`phase0.DomainType` (4 bytes), `phase0.Version` (4 bytes), `[]byte`,
`time.Time` (Unix seconds), `time.Duration` (a signed int64 nanosecond
count), `uint64`, or the raw `string`. -/
inductive SpecValue where
  | domainType (b : Bytes)
  | version (b : Bytes)
  | bytes (b : Bytes)
  | time (unixSeconds : Int)
  | duration (nanoseconds : Int)
  | uint (n : Nat)
  | str (s : GoStr)
deriving DecidableEq, Repr

/-- `dbValToSpec` (chainspec.go): turn a database value into a spec value.
Each `match` on an `Option` mirrors one `if` block of the Go function,
whose body returns on success and otherwise falls through to the next
block. -/
def dbValToSpec (key : GoStr) (val : GoStr) : SpecValue :=
  -- Handle domains.
  match (if goHasPfx domainPfx key then hexDecode (goTrimPfx hexPfx val) else none) with
  | some byteVal => SpecValue.domainType (copyBytes 4 byteVal)
  | none =>
  -- Handle fork versions.
  match (if goHasSfx forkVersionSfx key then hexDecode (goTrimPfx hexPfx val) else none) with
  | some byteVal => SpecValue.version (copyBytes 4 byteVal)
  | none =>
  -- Handle hex strings.
  match (if goHasPfx hexPfx val then hexDecode (goTrimPfx hexPfx val) else none) with
  | some byteVal => SpecValue.bytes byteVal
  | none =>
  -- Handle times.
  match (if goHasSfx timeSfx key then parseNonZeroInt64 val else none) with
  | some intVal => SpecValue.time intVal
  | none =>
  -- Handle durations.
  match (if goHasPfx secondsPerPfx key || goHasSfx delaySfx key then parseNonZeroUint64 val else none) with
  | some intVal => SpecValue.duration (goSecondsToDuration intVal)
  | none =>
  -- Handle integers.
  if val = zeroStr then SpecValue.uint 0
  else
    match parseNonZeroUint64 val with
    | some intVal => SpecValue.uint intVal
    | none =>
    -- Assume string.
    SpecValue.str val

/-- Decimal rendering of a natural number (Go `fmt.Sprintf("%d", v)` /
`strconv.Itoa` for non-negative values): most-significant digit first, no
sign, no leading zeros, `"0"` for zero. -/
def natToDec (n : Nat) : GoStr :=
  if n = 0 then ['0'] else (Nat.digits 10 n).reverse.map Nat.digitChar

/-- Go `strconv.FormatInt(v, 10)`: decimal rendering of a signed integer,
with a leading `'-'` exactly when negative. -/
def intToDec (t : Int) : GoStr :=
  if t < 0 then '-' :: natToDec (-t).toNat else natToDec t.toNat

/-- One byte as two lowercase hex characters (Go `%x` on a byte). -/
def hexEncodeByte (x : Nat) : GoStr :=
  [Nat.digitChar (x / 16), Nat.digitChar (x % 16)]

/-- Lowercase hex rendering of a byte string (Go `%x` on `[]byte`). -/
def hexEncode (b : Bytes) : GoStr := b.flatMap hexEncodeByte

/-- Go `fmt.Sprintf("%#x", v)` on a byte slice or byte array: `"0x"`
followed by the lowercase hex of the bytes, except that an empty slice
renders as the empty string (fmt writes nothing, not even the prefix,
when there are no bytes). -/
def goHexLiteral (b : Bytes) : GoStr :=
  if b = [] then [] else '0' :: 'x' :: hexEncode b

/-- The dynamically-typed argument of `SetChainSpecValue`, one constructor
per case of its Go type switch:
* `uintVal`: `phase0.Slot`/`Epoch`/`CommitteeIndex`/`ValidatorIndex`/`Gwei`
  (all `uint64` counters), encoded via `fmt.Sprintf("%d", v)`;
* `bytesVal`: `phase0.Root`/`Version`/`DomainType`/`ForkDigest`/`Domain`/
  `BLSPubKey`/`BLSSignature`/`[]byte`, encoded via `fmt.Sprintf("%#x", v)`;
* `durationVal`: `time.Duration`, encoded via
  `strconv.Itoa(int(v.Seconds()))`, modelled by its whole-second count
  (exact for whole-second durations, the only ones the round-trip claim
  quantifies over: for them `v.Seconds()` is an exactly-representable
  float and the truncation is the identity);
* `timeVal`: `time.Time`, encoded via `strconv.FormatInt(v.Unix(), 10)`,
  modelled by its Unix-second count;
* `stringVal`: the `default` case `fmt.Sprintf("%v", v)` applied to a
  plain string, which renders the string itself. -/
inductive SpecInput where
  | uintVal (n : Nat)
  | bytesVal (b : Bytes)
  | durationVal (seconds : Nat)
  | timeVal (unixSeconds : Int)
  | stringVal (s : GoStr)
deriving DecidableEq, Repr

/-- The `dbVal` computed by `SetChainSpecValue`'s type switch
(chainspec.go lines 39-51). -/
def specToDbVal : SpecInput → GoStr
  | .uintVal n => natToDec n
  | .bytesVal b => goHexLiteral b
  | .durationVal s => natToDec s
  | .timeVal t => intToDec t
  | .stringVal s => s

/-- A handle on an active database transaction.  The Transaction Accessor
(`s.tx(ctx)`) is modelled by passing `Option Tx` directly: `none` means no
transaction is bound to the context. -/
abbrev Tx := Unit

/-- The errors surfaced by the modelled operations: `ErrNoTransaction`,
`pgx.ErrNoRows`, and `errors.New("block missing")`. -/
inductive DbError where
  | noActiveTransaction
  | noRows
  | blockMissing
deriving DecidableEq, Repr

/-- Association-list lookup, modelling `SELECT ... WHERE key = $1`. -/
def assocFind {κ α : Type} [DecidableEq κ] (k : κ) : List (κ × α) → Option α
  | [] => none
  | e :: rest => if e.1 = k then some e.2 else assocFind k rest

/-- Association-list upsert, modelling `INSERT ... ON CONFLICT (key) DO
UPDATE SET ...` with full-row overwrite. -/
def assocUpsert {κ α : Type} [DecidableEq κ] (k : κ) (v : α) : List (κ × α) → List (κ × α)
  | [] => [(k, v)]
  | e :: rest => if e.1 = k then (k, v) :: rest else e :: assocUpsert k v rest

/-- The `t_chain_spec` table: `f_key` (text) to `f_value` (text). -/
abbrev ChainSpecStore := List (GoStr × GoStr)

/-- `SetChainSpecValue` (chainspec.go): require an active transaction,
encode the value through the type switch, and upsert `(key, dbVal)`. -/
def SetChainSpecValue (tx : Option Tx) (key : GoStr) (value : SpecInput)
    (db : ChainSpecStore) : Except DbError Unit × ChainSpecStore :=
  match tx with
  | none => (.error .noActiveTransaction, db)
  | some _ => (.ok (), assocUpsert key (specToDbVal value) db)

/-- `apiv1.Genesis`: validators root (32 bytes), genesis time (Unix
seconds), fork version (4 bytes). -/
structure Genesis where
  genesisValidatorsRoot : Bytes
  genesisTime : Int
  genesisForkVersion : Bytes
deriving DecidableEq, Repr

/-- The `t_genesis` table: `f_validators_root` (conflict key) to
`(f_time, f_fork_version)`. -/
abbrev GenesisStore := List (Bytes × (Int × Bytes))

/-- `SetGenesis` (genesis.go): require an active transaction, then upsert
the single row keyed by the validators root. -/
def SetGenesis (tx : Option Tx) (genesis : Genesis) (db : GenesisStore) :
    Except DbError Unit × GenesisStore :=
  match tx with
  | none => (.error .noActiveTransaction, db)
  | some _ =>
    (.ok (), assocUpsert genesis.genesisValidatorsRoot
      (genesis.genesisTime, genesis.genesisForkVersion) db)

/-- `shopspring/decimal.Decimal`: an arbitrary-precision decimal,
`value * 10 ^ exp`. -/
structure Decimal where
  value : Int
  exp : Int
deriving DecidableEq, Repr

/-- `decimal.NewFromBigInt(value, exp)`: exact construction. -/
def Decimal.newFromBigInt (value : Int) (exp : Int) : Decimal := ⟨value, exp⟩

/-- `decimal.Decimal.BigInt()`: the integer component, i.e. the value
rescaled to exponent 0 with truncation toward zero. -/
def Decimal.bigInt (d : Decimal) : Int :=
  if 0 ≤ d.exp then d.value * (10 : Int) ^ d.exp.toNat
  else Int.tdiv d.value ((10 : Int) ^ (-d.exp).toNat)

/-- `chaindb.ExecutionPayload`.  `extraData` models the Go `[]byte` field
with `none` for a nil slice and `some l` for a non-nil slice of content
`l`, so that a nil slice and a present-but-empty slice are distinct
inputs; `baseFeePerGas` models the `*big.Int` field. -/
structure ExecutionPayload where
  blockNumber : Nat
  blockHash : Bytes
  parentHash : Bytes
  feeRecipient : Bytes
  stateRoot : Bytes
  receiptsRoot : Bytes
  logsBloom : Bytes
  prevRandao : Bytes
  gasLimit : Nat
  gasUsed : Nat
  baseFeePerGas : Int
  timestamp : Nat
  extraData : Option Bytes
  excessDataGas : Nat
deriving DecidableEq, Repr

/-- The slice of a `chaindb.Block` that `setExecutionPayload` reads: its
root and its optional execution payload. -/
structure Block where
  root : Bytes
  executionPayload : Option ExecutionPayload
deriving DecidableEq, Repr

/-- The all-zero 32-byte sentinel `[32]byte{}`. -/
def zeroHash32 : Bytes := List.replicate 32 0

/-- One row of `t_block_execution_payloads`; `f_base_fee_per_gas` is an
arbitrary-precision decimal column and `f_extra_data` is nullable. -/
structure PayloadRow where
  blockNumber : Nat
  blockHash : Bytes
  parentHash : Bytes
  feeRecipient : Bytes
  stateRoot : Bytes
  receiptsRoot : Bytes
  logsBloom : Bytes
  prevRandao : Bytes
  gasLimit : Nat
  gasUsed : Nat
  baseFeePerGas : Decimal
  timestamp : Nat
  extraData : Option Bytes
  excessDataGas : Nat
deriving DecidableEq, Repr

/-- The `t_block_execution_payloads` table keyed by `f_block_root`. -/
abbrev PayloadStore := List (Bytes × PayloadRow)

/-- Modelled from the spec: the external withdrawals-persistence
collaborator (`s.setWithdrawals`), which is out of scope (§1: "a sibling
write invoked by, but not part of, the payload codec") and whose source is
not part of this repository slice; modelled as succeeding without touching
the payload store. -/
def setWithdrawals (_block : Block) (db : PayloadStore) : Except DbError PayloadStore :=
  .ok db

/-- `setExecutionPayload` (executionpayload.go): require an active
transaction; a nil block is an error; a nil payload and an all-zero block
hash are silent no-ops; otherwise upsert the row (with empty-length
`ExtraData` stored as NULL via the `len(...) > 0` guard and the base fee
passed through `decimal.NewFromBigInt(·, 0)`) and then invoke the
withdrawals collaborator, whose failure surfaces without undoing the row
upsert. -/
def setExecutionPayload (tx : Option Tx) (block : Option Block)
    (db : PayloadStore) : Except DbError Unit × PayloadStore :=
  match tx with
  | none => (.error .noActiveTransaction, db)
  | some _ =>
  match block with
  | none => (.error .blockMissing, db)
  | some b =>
  match b.executionPayload with
  | none =>
    -- Do not treat this as an error, as pre-Bellatrix blocks will not
    -- have an execution payload.
    (.ok (), db)
  | some p =>
  if p.blockHash = zeroHash32 then
    -- This is an empty execution payload, which happens after the
    -- bellatrix fork but before terminal total difficulty; ignore it.
    (.ok (), db)
  else
    -- ExtraData can be null.
    let extraData : Option Bytes :=
      if 0 < (p.extraData.getD []).length then some (p.extraData.getD []) else none
    let row : PayloadRow :=
      { blockNumber := p.blockNumber
        blockHash := p.blockHash
        parentHash := p.parentHash
        feeRecipient := p.feeRecipient
        stateRoot := p.stateRoot
        receiptsRoot := p.receiptsRoot
        logsBloom := p.logsBloom
        prevRandao := p.prevRandao
        gasLimit := p.gasLimit
        gasUsed := p.gasUsed
        baseFeePerGas := Decimal.newFromBigInt p.baseFeePerGas 0
        timestamp := p.timestamp
        extraData := extraData
        excessDataGas := p.excessDataGas }
    let db2 := assocUpsert b.root row db
    match setWithdrawals b db2 with
    | .ok db3 => (.ok (), db3)
    | .error e => (.error e, db2)

/-- Reconstruction of a fetched payload from a row: fixed-width fields go
through `copy` into zero-initialised arrays, the base fee through
`Decimal.BigInt()`, and a NULL `f_extra_data` scans to a nil slice. -/
def rowToPayload (row : PayloadRow) : ExecutionPayload :=
  { blockNumber := row.blockNumber
    blockHash := copyBytes 32 row.blockHash
    parentHash := copyBytes 32 row.parentHash
    feeRecipient := copyBytes 20 row.feeRecipient
    stateRoot := copyBytes 32 row.stateRoot
    receiptsRoot := copyBytes 32 row.receiptsRoot
    logsBloom := copyBytes 256 row.logsBloom
    prevRandao := copyBytes 32 row.prevRandao
    gasLimit := row.gasLimit
    gasUsed := row.gasUsed
    baseFeePerGas := row.baseFeePerGas.bigInt
    timestamp := row.timestamp
    extraData := row.extraData
    excessDataGas := row.excessDataGas }

/-- `executionPayload` (single fetch): a missing row surfaces as
`pgx.ErrNoRows`, which the function converts to `(nil, nil)`, modelled as
`.ok none`. -/
def executionPayload (root : Bytes) (db : PayloadStore) :
    Except DbError (Option ExecutionPayload) :=
  match assocFind root db with
  | none => .ok none
  | some row => .ok (some (rowToPayload row))

/-- `executionPayloads` (batched fetch): `WHERE f_block_root = ANY($1)`
returns the rows whose root is among the requested roots; the result map
is built only from returned rows, with the key recovered via `copy` into
a 32-byte array. -/
def executionPayloads (roots : List Bytes) (db : PayloadStore) :
    Except DbError (List (Bytes × ExecutionPayload)) :=
  .ok ((db.filter (fun e => roots.contains e.1)).map
    (fun e => (copyBytes 32 e.1, rowToPayload e.2)))

/-- Spec decode rule 1: key has prefix `"DOMAIN_"` and the value
hex-decodes → a 4-byte domain type. -/
def decodeRule1 (key val : GoStr) : Option SpecValue :=
  if goHasPfx domainPfx key then
    (hexDecode (goTrimPfx hexPfx val)).map fun b => SpecValue.domainType (copyBytes 4 b)
  else none

/-- Spec decode rule 2: key has suffix `"_FORK_VERSION"` and the value
hex-decodes → a 4-byte version. -/
def decodeRule2 (key val : GoStr) : Option SpecValue :=
  if goHasSfx forkVersionSfx key then
    (hexDecode (goTrimPfx hexPfx val)).map fun b => SpecValue.version (copyBytes 4 b)
  else none

/-- Spec decode rule 3: value starts with `"0x"` and hex-decodes → a
variable-length byte string. -/
def decodeRule3 (_key val : GoStr) : Option SpecValue :=
  if goHasPfx hexPfx val then
    (hexDecode (goTrimPfx hexPfx val)).map SpecValue.bytes
  else none

/-- Spec decode rule 4: key has suffix `"_TIME"` and the value parses as a
non-zero integer → a Unix-seconds timestamp. -/
def decodeRule4 (key val : GoStr) : Option SpecValue :=
  if goHasSfx timeSfx key then (parseNonZeroInt64 val).map SpecValue.time
  else none

/-- Spec decode rule 5 (amended): key has prefix `"SECONDS_PER_"` or
suffix `"_DELAY"` and the value parses as a non-zero unsigned integer →
the duration `time.Duration(intVal) * time.Second`, whose int64
nanosecond count is `intVal * 10^9` wrapped mod `2^64`; it is a duration
of that many seconds only when `intVal ≤ 9223372036`. -/
def decodeRule5 (key val : GoStr) : Option SpecValue :=
  if goHasPfx secondsPerPfx key || goHasSfx delaySfx key then
    (parseNonZeroUint64 val).map fun intVal => SpecValue.duration (goSecondsToDuration intVal)
  else none

/-- Spec decode rule 6: value is literally `"0"` → unsigned integer zero. -/
def decodeRule6 (_key val : GoStr) : Option SpecValue :=
  if val = zeroStr then some (SpecValue.uint 0) else none

/-- Spec decode rule 7: value parses as a non-zero unsigned integer → that
integer. -/
def decodeRule7 (_key val : GoStr) : Option SpecValue :=
  (parseNonZeroUint64 val).map SpecValue.uint

/-- Spec decode rule 8: otherwise the raw string (total exhaustion, cannot
fail). -/
def decodeRule8 (_key val : GoStr) : Option SpecValue :=
  some (SpecValue.str val)

/-- The spec's eight decode rules, in order. -/
def specDecodeRules : List (GoStr → GoStr → Option SpecValue) :=
  [decodeRule1, decodeRule2, decodeRule3, decodeRule4,
   decodeRule5, decodeRule6, decodeRule7, decodeRule8]

/-- Apply an ordered list of rules, first match winning; a failed rule
falls through to the next one. -/
def firstMatch (rules : List (GoStr → GoStr → Option SpecValue))
    (key val : GoStr) : Option SpecValue :=
  match rules with
  | [] => none
  | r :: rs =>
    match r key val with
    | some v => some v
    | none => firstMatch rs key val

/-- The decoder as the spec states it: the eight rules applied in order
with first match winning.  Rule 8 always matches, so the default is never
used and the function is total. -/
def decodeBySpecRules (key val : GoStr) : SpecValue :=
  (firstMatch specDecodeRules key val).getD (SpecValue.str val)

/-- A key matching none of the decoder's five key patterns (the natural
home of plain integer counters such as `"SLOTS_PER_EPOCH"`). -/
def PlainKey (key : GoStr) : Prop :=
  goHasPfx domainPfx key = false ∧ goHasSfx forkVersionSfx key = false ∧
  goHasSfx timeSfx key = false ∧ goHasPfx secondsPerPfx key = false ∧
  goHasSfx delaySfx key = false

/-- The largest whole-second count representable by a Go `time.Duration`
(`(2^63 - 1) / 10^9` nanoseconds, truncated). -/
def maxDurationSeconds : Nat := 9223372036

/-- The representable, non-ambiguous range of each encodable type class,
per key (spec §3/§8): values a Go caller can hold (64-bit counters, byte
values below 256, `time.Duration` whole seconds, `int64` Unix seconds)
that do not hit a documented cross-class ambiguity of the untagged
format — byte strings must be non-empty (an empty slice encodes as the
empty string) and exactly 4 bytes under a domain/fork-version key (those
rules truncate or pad to 4), durations and timestamps must be non-zero
(the documented zero fallthrough) and sit under a key matching their own
rule and no earlier rule's key pattern, counters sit under a pattern-free
key, and opaque strings must not themselves read as hex or as a decimal
integer. -/
def InRange (key : GoStr) : SpecInput → Prop
  | .uintVal n => n < 2 ^ 64 ∧ PlainKey key
  | .bytesVal b => b ≠ [] ∧ (∀ x ∈ b, x < 256) ∧
      (goHasPfx domainPfx key = true → b.length = 4) ∧
      (goHasSfx forkVersionSfx key = true → b.length = 4)
  | .durationVal s => 0 < s ∧ s ≤ maxDurationSeconds ∧
      (goHasPfx secondsPerPfx key = true ∨ goHasSfx delaySfx key = true) ∧
      goHasPfx domainPfx key = false ∧ goHasSfx forkVersionSfx key = false ∧
      goHasSfx timeSfx key = false
  | .timeVal t => t ≠ 0 ∧ -(2 ^ 63) ≤ t ∧ t < 2 ^ 63 ∧
      goHasSfx timeSfx key = true ∧
      goHasPfx domainPfx key = false ∧ goHasSfx forkVersionSfx key = false
  | .stringVal s => hexDecode (goTrimPfx hexPfx s) = none ∧
      parseInt64 s = none ∧ parseUint64 s = none ∧ s ≠ zeroStr

instance (key : GoStr) : Decidable (PlainKey key) := by
  unfold PlainKey
  infer_instance

instance (key : GoStr) (v : SpecInput) : Decidable (InRange key v) := by
  cases v <;> unfold InRange <;> infer_instance

/-- Semantic equivalence across the encode/decode boundary: the decoded
value belongs to the same type class as the encoded one (unsigned
integer, byte array — fixed-width or variable, duration, timestamp,
opaque string) and carries equal content; a whole-second encode-side
duration of `s` seconds matches a decoded duration of exactly
`s * 10^9` nanoseconds. -/
def SemEquiv : SpecInput → SpecValue → Prop
  | .uintVal n, .uint m => n = m
  | .bytesVal b, .domainType d => b = d
  | .bytesVal b, .version d => b = d
  | .bytesVal b, .bytes d => b = d
  | .durationVal s, .duration ns => (s : Int) * 1000000000 = ns
  | .timeVal t, .time u => t = u
  | .stringVal s, .str r => s = r
  | _, _ => False

/-- A sample 32-byte block root used by concrete witnesses. -/
def sampleRoot : Bytes := List.replicate 31 0 ++ [1]

/-- A sample execution payload with a base fee of `2^200` (beyond 64
bits) and a non-zero block hash. -/
def samplePayload : ExecutionPayload :=
  { blockNumber := 1
    blockHash := List.replicate 31 0 ++ [2]
    parentHash := zeroHash32
    feeRecipient := List.replicate 20 0
    stateRoot := zeroHash32
    receiptsRoot := zeroHash32
    logsBloom := List.replicate 256 0
    prevRandao := zeroHash32
    gasLimit := 30000000
    gasUsed := 21000
    baseFeePerGas := 2 ^ 200
    timestamp := 1700000000
    extraData := none
    excessDataGas := 0 }

/-- A sample block carrying `samplePayload`. -/
def sampleBlock : Block :=
  { root := sampleRoot, executionPayload := some samplePayload }

/-- The row `setExecutionPayload` stores for `samplePayload`. -/
def sampleRow : PayloadRow :=
  { blockNumber := 1
    blockHash := List.replicate 31 0 ++ [2]
    parentHash := zeroHash32
    feeRecipient := List.replicate 20 0
    stateRoot := zeroHash32
    receiptsRoot := zeroHash32
    logsBloom := List.replicate 256 0
    prevRandao := zeroHash32
    gasLimit := 30000000
    gasUsed := 21000
    baseFeePerGas := Decimal.newFromBigInt (2 ^ 200) 0
    timestamp := 1700000000
    extraData := none
    excessDataGas := 0 }

/-- A one-row payload store holding `sampleRow` under `sampleRoot`. -/
def sampleStore : PayloadStore := [(sampleRoot, sampleRow)]

/-- A 32-byte root with no row in `sampleStore`. -/
def otherRoot : Bytes := List.replicate 31 0 ++ [9]

/-- If a guarded parse succeeds, the corresponding mapped rule yields the
mapped result. -/
theorem ifOpt_map_some {α β : Type} {c : Bool} {o : Option α} {f : α → β} {b : α}
    (h : (if c then o else none) = some b) :
    (if c then o.map f else none) = some (f b) := by
  cases c <;> simp_all

/-- If a guarded parse fails, the corresponding mapped rule fails too. -/
theorem ifOpt_map_none {α β : Type} {c : Bool} {o : Option α} {f : α → β}
    (h : (if c then o else none) = none) :
    (if c then o.map f else none) = none := by
  cases c <;> simp_all

example : dbValToSpec "DOMAIN_BEACON_ATTESTER".toList "0x01000000".toList
    = SpecValue.domainType [1, 0, 0, 0] := by decide
example : dbValToSpec "GENESIS_FORK_VERSION".toList "0x00000000".toList
    = SpecValue.version [0, 0, 0, 0] := by decide
example : dbValToSpec "SECONDS_PER_SLOT".toList "12".toList
    = SpecValue.duration 12000000000 := by decide
example : dbValToSpec "GENESIS_TIME".toList "0".toList
    = SpecValue.uint 0 := by decide
example : dbValToSpec "GENESIS_TIME".toList "1606824023".toList
    = SpecValue.time 1606824023 := by decide
example : dbValToSpec "DOMAIN_X".toList "12".toList
    = SpecValue.domainType [18, 0, 0, 0] := by decide
example : dbValToSpec "PRESET_BASE".toList "mainnet".toList
    = SpecValue.str "mainnet".toList := by decide

/-- C1 (amended): Decode is the total function on (key, storedString)
given by the spec's eight rules applied in order with first match
winning, except that rule 5 returns `time.Duration(intVal) * time.Second`
— a duration whose int64 nanosecond count is `intVal * 10^9` wrapped mod
`2^64` into signed range, equal to a duration of `intVal` seconds only
when `intVal ≤ 9223372036`.  A failed parse at any rule falls through to
the next rule, so Decode never fails for any pair (both sides are total
functions). -/
theorem decode_is_ordered_first_match (key val : GoStr) :
    dbValToSpec key val = decodeBySpecRules key val := by
  unfold dbValToSpec decodeBySpecRules specDecodeRules
  simp only [firstMatch, decodeRule1, decodeRule2, decodeRule3, decodeRule4,
    decodeRule5, decodeRule6, decodeRule7, decodeRule8]
  cases h1 : (if goHasPfx domainPfx key then hexDecode (goTrimPfx hexPfx val) else none) with
  | some b => rw [ifOpt_map_some h1]; rfl
  | none =>
  rw [ifOpt_map_none h1]
  cases h2 : (if goHasSfx forkVersionSfx key then hexDecode (goTrimPfx hexPfx val) else none) with
  | some b => rw [ifOpt_map_some h2]; rfl
  | none =>
  rw [ifOpt_map_none h2]
  cases h3 : (if goHasPfx hexPfx val then hexDecode (goTrimPfx hexPfx val) else none) with
  | some b => rw [ifOpt_map_some h3]; rfl
  | none =>
  rw [ifOpt_map_none h3]
  cases h4 : (if goHasSfx timeSfx key then parseNonZeroInt64 val else none) with
  | some i => rw [ifOpt_map_some h4]; rfl
  | none =>
  rw [ifOpt_map_none h4]
  cases h5 : (if goHasPfx secondsPerPfx key || goHasSfx delaySfx key then parseNonZeroUint64 val else none) with
  | some n => rw [ifOpt_map_some h5]; rfl
  | none =>
  rw [ifOpt_map_none h5]
  by_cases h6 : val = zeroStr
  · simp [h6]
  · cases h7 : parseNonZeroUint64 val <;> simp [h6, h7]

/-- C1 counterexample: the duration rule does not return "a duration of
that many seconds": `time.Duration(intVal) * time.Second` wraps in int64
nanoseconds, so stored `"36028797018963969"` (that is `2^55 + 1`) under a
`"SECONDS_PER_"` key decodes to a 1-second duration — indistinguishable
from stored `"1"` — not to `(2^55 + 1) * 10^9` nanoseconds, and stored
`"10000000000"` decodes to a negative duration. -/
theorem duration_rule_wraps_counterexample :
    dbValToSpec "SECONDS_PER_X".toList "36028797018963969".toList
      = SpecValue.duration 1000000000 ∧
    dbValToSpec "SECONDS_PER_X".toList "1".toList
      = SpecValue.duration 1000000000 ∧
    (1000000000 : Int) ≠ (36028797018963969 : Int) * 1000000000 ∧
    dbValToSpec "SECONDS_PER_X".toList "10000000000".toList
      = SpecValue.duration (-8446744073709551616) :=
  ⟨by decide, by decide, by decide, by decide⟩

/-- For every key, the stored string `"0"` decodes to the unsigned integer
zero: it is not valid hex (odd length), does not start with `"0x"`, and
parses to the integer zero, so rules 1-5 all fall through and rule 6
fires. -/
theorem dbValToSpec_zeroStr (key : GoStr) : dbValToSpec key zeroStr = SpecValue.uint 0 := by
  have hhex : hexDecode (goTrimPfx hexPfx zeroStr) = none := by decide
  have hpfx : goHasPfx hexPfx zeroStr = false := by decide
  have hint : parseNonZeroInt64 zeroStr = none := by decide
  have huint : parseNonZeroUint64 zeroStr = none := by decide
  unfold dbValToSpec
  rw [hhex, hint, huint, hpfx]
  simp

/-- C3: a key ending in `"_TIME"` (or matching the duration patterns
`"SECONDS_PER_"`/`"_DELAY"`) whose stored value is `"0"` decodes to the
unsigned integer zero, not an epoch-zero timestamp or a zero duration:
the time and duration rules require a non-zero parsed integer, so a
stored zero falls through to the integer rules. -/
theorem stored_zero_decodes_to_uint_zero (key : GoStr)
    (_h : goHasSfx timeSfx key = true ∨
      (goHasPfx secondsPerPfx key = true ∨ goHasSfx delaySfx key = true)) :
    dbValToSpec key zeroStr = SpecValue.uint 0 :=
  dbValToSpec_zeroStr key

/-- Witness for C3: `"GENESIS_TIME"` and `"SECONDS_PER_SLOT"` with stored
`"0"` both decode to `uint64(0)`. -/
theorem stored_zero_decodes_to_uint_zero_witness :
    (goHasSfx timeSfx "GENESIS_TIME".toList = true ∧
      dbValToSpec "GENESIS_TIME".toList zeroStr = SpecValue.uint 0) ∧
    (goHasPfx secondsPerPfx "SECONDS_PER_SLOT".toList = true ∧
      dbValToSpec "SECONDS_PER_SLOT".toList zeroStr = SpecValue.uint 0) :=
  ⟨⟨by decide, stored_zero_decodes_to_uint_zero _ (Or.inl (by decide))⟩,
   ⟨by decide, stored_zero_decodes_to_uint_zero _ (Or.inr (Or.inl (by decide)))⟩⟩

/-- C10: the domain-prefix and fork-version-suffix rules strip `"0x"`
only if present and accept any valid hex payload of any length, returning
a 4-byte value holding the first `min 4 n` decoded bytes zero-filled on
the right (longer payloads truncate, shorter ones pad; a decimal-digit
value such as `"12"` is valid hex and decodes as bytes under such keys,
not as an integer). -/
theorem domain_fork_rules_pad_and_truncate (key val : GoStr) (bs : Bytes)
    (h : goHasPfx domainPfx key = true ∨ goHasSfx forkVersionSfx key = true)
    (hdec : hexDecode (goTrimPfx hexPfx val) = some bs) :
    dbValToSpec key val
      = SpecValue.domainType (bs.take 4 ++ List.replicate (4 - bs.length) 0) ∨
    dbValToSpec key val
      = SpecValue.version (bs.take 4 ++ List.replicate (4 - bs.length) 0) := by
  unfold dbValToSpec
  cases hd : goHasPfx domainPfx key with
  | true => left; simp [hd, hdec, copyBytes]
  | false =>
    have hf : goHasSfx forkVersionSfx key = true := by
      cases h with
      | inl h1 => rw [hd] at h1; cases h1
      | inr h2 => exact h2
    right; simp [hd, hf, hdec, copyBytes]

/-- Witness for C10: key `"DOMAIN_X"` with the bare decimal value `"12"`
(no `"0x"`, one byte) decodes to the zero-padded domain type
`[0x12, 0, 0, 0]`, not to the integer 12. -/
theorem domain_fork_rules_pad_and_truncate_witness :
    (goHasPfx domainPfx "DOMAIN_X".toList = true ∨
      goHasSfx forkVersionSfx "DOMAIN_X".toList = true) ∧
    hexDecode (goTrimPfx hexPfx "12".toList) = some [18] ∧
    (dbValToSpec "DOMAIN_X".toList "12".toList
        = SpecValue.domainType ([18].take 4 ++ List.replicate (4 - [18].length) 0) ∨
      dbValToSpec "DOMAIN_X".toList "12".toList
        = SpecValue.version ([18].take 4 ++ List.replicate (4 - [18].length) 0)) :=
  ⟨Or.inl (by decide), by decide,
    domain_fork_rules_pad_and_truncate _ _ _ (Or.inl (by decide)) (by decide)⟩

/-- Lookup after upsert at the same key finds the new value. -/
theorem assocFind_assocUpsert {κ α : Type} [DecidableEq κ] (k : κ) (v : α)
    (l : List (κ × α)) : assocFind k (assocUpsert k v l) = some v := by
  induction l with
  | nil => simp [assocUpsert, assocFind]
  | cons e rest ih =>
    unfold assocUpsert
    by_cases he : e.1 = k
    · simp [he, assocFind]
    · simp [he, assocFind, ih]

/-- An exact-integer decimal converts back to the same integer. -/
theorem decimal_roundtrip (v : Int) : (Decimal.newFromBigInt v 0).bigInt = v := by
  simp [Decimal.newFromBigInt, Decimal.bigInt]

/-- C4: every write entry point (`SetGenesis`, `SetChainSpecValue`,
`setExecutionPayload`) called with no active transaction bound to the
context fails with the `NoActiveTransaction` error and leaves the stored
state unchanged; writes never fall back to an implicit transaction. -/
theorem writes_require_active_transaction :
    (∀ (g : Genesis) (db : GenesisStore),
      SetGenesis none g db = (.error .noActiveTransaction, db)) ∧
    (∀ (key : GoStr) (v : SpecInput) (db : ChainSpecStore),
      SetChainSpecValue none key v db = (.error .noActiveTransaction, db)) ∧
    (∀ (blk : Option Block) (db : PayloadStore),
      setExecutionPayload none blk db = (.error .noActiveTransaction, db)) :=
  ⟨fun _ _ => rfl, fun _ _ _ => rfl, fun _ _ => rfl⟩

/-- C9: `setExecutionPayload` called (inside a transaction) with a nil
block returns the "block missing" error rather than treating it as a
benign no-op; only the nil-payload and all-zero-block-hash cases are
silent skips. -/
theorem nil_block_is_an_error (t : Tx) (db : PayloadStore) :
    setExecutionPayload (some t) none db = (.error .blockMissing, db) := rfl

/-- C5: a block with no execution payload, or one whose payload's block
hash is the all-zero 32-byte sentinel, is silently skipped:
`setExecutionPayload` returns no error and persists no row, so a
subsequent fetch for that block root still reports no row. -/
theorem absent_or_zero_hash_payload_is_skipped (t : Tx) (db : PayloadStore) (b : Block)
    (h : b.executionPayload = none ∨
      ∃ p, b.executionPayload = some p ∧ p.blockHash = zeroHash32) :
    setExecutionPayload (some t) (some b) db = (.ok (), db) ∧
    (assocFind b.root db = none → executionPayload b.root db = .ok none) := by
  obtain ⟨root, bep⟩ := b
  constructor
  · cases h with
    | inl hn =>
      dsimp only at hn
      subst hn
      rfl
    | inr hp =>
      obtain ⟨p, hp, hz⟩ := hp
      dsimp only at hp
      subst hp
      simp [setExecutionPayload, hz]
  · intro hf
    unfold executionPayload
    rw [hf]

/-- Witness for C5: a payload-less block and a zero-block-hash payload
are both skipped against the empty store, and the fetch reports no row. -/
theorem absent_or_zero_hash_payload_is_skipped_witness :
    ((Block.mk sampleRoot none).executionPayload = none ∧
      setExecutionPayload (some ()) (some (Block.mk sampleRoot none)) [] = (.ok (), []) ∧
      (assocFind (Block.mk sampleRoot none).root ([] : PayloadStore) = none →
        executionPayload (Block.mk sampleRoot none).root ([] : PayloadStore) = .ok none)) ∧
    ((∃ p, (Block.mk sampleRoot (some { samplePayload with blockHash := zeroHash32 })).executionPayload
        = some p ∧ p.blockHash = zeroHash32) ∧
      setExecutionPayload (some ())
        (some (Block.mk sampleRoot (some { samplePayload with blockHash := zeroHash32 }))) []
        = (.ok (), [])) :=
  ⟨⟨rfl,
    (absent_or_zero_hash_payload_is_skipped () [] _ (Or.inl rfl)).1,
    (absent_or_zero_hash_payload_is_skipped () [] _ (Or.inl rfl)).2⟩,
   ⟨⟨{ samplePayload with blockHash := zeroHash32 }, rfl, rfl⟩,
    (absent_or_zero_hash_payload_is_skipped () [] _
      (Or.inr ⟨{ samplePayload with blockHash := zeroHash32 }, rfl, rfl⟩)).1⟩⟩

/-- C6: the base-fee-per-gas field survives a store/fetch cycle exactly
for every non-negative integer value, including values beyond 64 bits,
because it passes through an arbitrary-precision decimal representation
(`decimal.NewFromBigInt(·, 0)` on write, `Decimal.BigInt()` on read). -/
theorem base_fee_round_trip (t : Tx) (db : PayloadStore) (b : Block) (p : ExecutionPayload)
    (hp : b.executionPayload = some p) (hz : p.blockHash ≠ zeroHash32)
    (_hnn : 0 ≤ p.baseFeePerGas) :
    ∃ db2, setExecutionPayload (some t) (some b) db = (.ok (), db2) ∧
      ∃ fp, executionPayload b.root db2 = .ok (some fp) ∧
        fp.baseFeePerGas = p.baseFeePerGas := by
  obtain ⟨root, bep⟩ := b
  dsimp only at hp
  subst hp
  simp only [setExecutionPayload, setWithdrawals]
  rw [if_neg hz]
  refine ⟨_, rfl, ?_⟩
  simp only [executionPayload, assocFind_assocUpsert]
  exact ⟨_, rfl, by simp [rowToPayload, decimal_roundtrip]⟩

/-- Witness for C6: a base fee of `2^200` (far beyond 64 bits) stored
then fetched returns exactly `2^200`. -/
theorem base_fee_round_trip_witness :
    (sampleBlock.executionPayload = some samplePayload ∧
      samplePayload.blockHash ≠ zeroHash32 ∧
      (0 : Int) ≤ samplePayload.baseFeePerGas ∧
      samplePayload.baseFeePerGas = 2 ^ 200) ∧
    (∃ db2, setExecutionPayload (some ()) (some sampleBlock) [] = (.ok (), db2) ∧
      ∃ fp, executionPayload sampleBlock.root db2 = .ok (some fp) ∧
        fp.baseFeePerGas = samplePayload.baseFeePerGas) :=
  ⟨⟨rfl, by decide, by norm_num [samplePayload], rfl⟩,
   base_fee_round_trip () [] sampleBlock samplePayload rfl (by decide)
     (by norm_num [samplePayload])⟩

/-- C7 counterexample: storing a payload with present-but-empty
`extraData` and storing one with absent `extraData` yield identical
stores and identical fetched records (the `len(...) > 0` guard maps both
to NULL), and the fetched record reports `extraData` absent — the two are
not distinguishable. -/
theorem extra_data_absent_vs_empty_counterexample :
    setExecutionPayload (some ())
        (some { sampleBlock with
          executionPayload := some { samplePayload with extraData := some [] } }) []
      = setExecutionPayload (some ()) (some sampleBlock) [] ∧
    executionPayload sampleRoot
        (setExecutionPayload (some ())
          (some { sampleBlock with
            executionPayload := some { samplePayload with extraData := some [] } }) []).2
      = executionPayload sampleRoot
          (setExecutionPayload (some ()) (some sampleBlock) []).2 ∧
    ∃ fp, executionPayload sampleRoot
        (setExecutionPayload (some ())
          (some { sampleBlock with
            executionPayload := some { samplePayload with extraData := some [] } }) []).2
      = .ok (some fp) ∧ fp.extraData = none :=
  ⟨rfl, rfl, ⟨_, rfl, rfl⟩⟩

/-- C7 amended: absent and present-but-empty `extraData` are not
distinguishable after a store/fetch cycle: `setExecutionPayload` stores
NULL for both (its guard tests only the length), so the two writes
produce identical results on any store. -/
theorem extra_data_empty_stored_as_null (t : Tx) (db : PayloadStore) (b : Block)
    (p : ExecutionPayload) :
    setExecutionPayload (some t)
        (some { b with executionPayload := some { p with extraData := some [] } }) db
      = setExecutionPayload (some t)
        (some { b with executionPayload := some { p with extraData := none } }) db := rfl

/-- `copy` into an equal-length destination is the identity. -/
theorem copyBytes_of_length {n : Nat} {l : Bytes} (h : l.length = n) :
    copyBytes n l = l := by
  subst h
  simp [copyBytes]

/-- `assocFind` misses exactly when no entry carries the key. -/
theorem assocFind_eq_none_iff {κ α : Type} [DecidableEq κ] {k : κ} {l : List (κ × α)} :
    assocFind k l = none ↔ ∀ e ∈ l, e.1 ≠ k := by
  induction l with
  | nil => simp [assocFind]
  | cons e rest ih => by_cases he : e.1 = k <;> simp [assocFind, he, ih]

/-- A root with no row in the store is absent from the batched result
map (whose keys are the stored roots passed through a 32-byte copy). -/
theorem payloads_map_absent {roots : List Bytes} {db : PayloadStore} {root : Bytes}
    (h32 : ∀ e ∈ db, (e.1 : Bytes).length = 32)
    (hf : assocFind root db = none) :
    assocFind root ((db.filter (fun e => roots.contains e.1)).map
      (fun e => (copyBytes 32 e.1, rowToPayload e.2))) = none := by
  induction db with
  | nil => simp [assocFind]
  | cons e rest ih =>
    rw [assocFind_eq_none_iff] at hf
    have he : e.1 ≠ root := hf e (List.mem_cons_self e rest)
    have hrest : assocFind root rest = none := by
      rw [assocFind_eq_none_iff]
      exact fun x hx => hf x (List.mem_cons_of_mem e hx)
    have h32r : ∀ x ∈ rest, (x.1 : Bytes).length = 32 :=
      fun x hx => h32 x (List.mem_cons_of_mem e hx)
    have h32e : (e.1 : Bytes).length = 32 := h32 e (List.mem_cons_self e rest)
    rw [List.filter_cons]
    by_cases hc : roots.contains e.1 = true
    · rw [if_pos hc, List.map_cons]
      unfold assocFind
      dsimp only
      rw [copyBytes_of_length h32e, if_neg he]
      exact ih h32r hrest
    · rw [if_neg hc]
      exact ih h32r hrest

/-- A root whose row is in the store and among the requested roots maps
to its full record in the batched result. -/
theorem payloads_map_present {roots : List Bytes} {db : PayloadStore} {root : Bytes}
    {row : PayloadRow}
    (h32 : ∀ e ∈ db, (e.1 : Bytes).length = 32)
    (hf : assocFind root db = some row) (hr : roots.contains root = true) :
    assocFind root ((db.filter (fun e => roots.contains e.1)).map
      (fun e => (copyBytes 32 e.1, rowToPayload e.2))) = some (rowToPayload row) := by
  induction db with
  | nil => simp [assocFind] at hf
  | cons e rest ih =>
    have h32r : ∀ x ∈ rest, (x.1 : Bytes).length = 32 :=
      fun x hx => h32 x (List.mem_cons_of_mem e hx)
    have h32e : (e.1 : Bytes).length = 32 := h32 e (List.mem_cons_self e rest)
    rw [List.filter_cons]
    by_cases he : e.1 = root
    · have hfe : e.2 = row := by
        unfold assocFind at hf
        rw [if_pos he] at hf
        exact Option.some.inj hf
      have hc : roots.contains e.1 = true := by rw [he]; exact hr
      rw [if_pos hc, List.map_cons]
      unfold assocFind
      dsimp only
      rw [copyBytes_of_length h32e, if_pos he, hfe]
    · have hrest : assocFind root rest = some row := by
        unfold assocFind at hf
        rwa [if_neg he] at hf
      by_cases hc : roots.contains e.1 = true
      · rw [if_pos hc, List.map_cons]
        unfold assocFind
        dsimp only
        rw [copyBytes_of_length h32e, if_neg he]
        exact ih h32r hrest
      · rw [if_neg hc]
        exact ih h32r hrest

/-- C8: optional payload lookups never report absence as an error: the
single fetch returns `(none, no-error)` for a root with no stored row,
and the batched fetch returns a mapping from which such a root is simply
absent — not present with a nil value — while roots with rows (among the
requested roots, in a store of 32-byte keys) map to their full records. -/
theorem optional_lookups_absence_is_not_error :
    (∀ (root : Bytes) (db : PayloadStore),
      assocFind root db = none → executionPayload root db = .ok none) ∧
    (∀ (roots : List Bytes) (db : PayloadStore) (root : Bytes),
      (∀ e ∈ db, (e.1 : Bytes).length = 32) → assocFind root db = none →
      ∃ m, executionPayloads roots db = .ok m ∧ assocFind root m = none) ∧
    (∀ (roots : List Bytes) (db : PayloadStore) (root : Bytes) (row : PayloadRow),
      (∀ e ∈ db, (e.1 : Bytes).length = 32) → assocFind root db = some row →
      roots.contains root = true →
      ∃ m, executionPayloads roots db = .ok m ∧
        assocFind root m = some (rowToPayload row)) := by
  refine ⟨?_, ?_, ?_⟩
  · intro root db h
    unfold executionPayload
    rw [h]
  · intro roots db root h32 hf
    exact ⟨_, rfl, payloads_map_absent h32 hf⟩
  · intro roots db root row h32 hf hr
    exact ⟨_, rfl, payloads_map_present h32 hf hr⟩

/-- Witness for C8: against a one-row store, a missing root fetches as
`(none, no-error)` singly and is absent from the batched map, while the
stored root maps to its full record. -/
theorem optional_lookups_absence_is_not_error_witness :
    (assocFind otherRoot sampleStore = none ∧
      executionPayload otherRoot sampleStore = .ok none) ∧
    ((∀ e ∈ sampleStore, (e.1 : Bytes).length = 32) ∧
      ∃ m, executionPayloads [sampleRoot, otherRoot] sampleStore = .ok m ∧
        assocFind otherRoot m = none) ∧
    (assocFind sampleRoot sampleStore = some sampleRow ∧
      [sampleRoot, otherRoot].contains sampleRoot = true ∧
      ∃ m, executionPayloads [sampleRoot, otherRoot] sampleStore = .ok m ∧
        assocFind sampleRoot m = some (rowToPayload sampleRow)) :=
  ⟨⟨by decide, optional_lookups_absence_is_not_error.1 otherRoot sampleStore (by decide)⟩,
   ⟨by decide, optional_lookups_absence_is_not_error.2.1 [sampleRoot, otherRoot]
      sampleStore otherRoot (by decide) (by decide)⟩,
   ⟨rfl, by decide, optional_lookups_absence_is_not_error.2.2 [sampleRoot, otherRoot]
      sampleStore sampleRoot sampleRow (by decide) rfl (by decide)⟩⟩

/-- Digits below ten render as decimal digit characters. -/
theorem digitChar_isDigit : ∀ d, d < 10 → (Nat.digitChar d).isDigit = true := by decide

/-- `decCharVal` inverts `Nat.digitChar` on digits below ten. -/
theorem decCharVal_digitChar : ∀ d, d < 10 → decCharVal (Nat.digitChar d) = d := by decide

/-- `hexCharVal` inverts `Nat.digitChar` on digits below sixteen. -/
theorem hexCharVal_digitChar : ∀ d, d < 16 → hexCharVal (Nat.digitChar d) = some d := by decide

/-- Every character of a rendered natural number is a decimal digit. -/
theorem natToDec_all_isDigit (n : Nat) : (natToDec n).all Char.isDigit = true := by
  unfold natToDec
  by_cases h0 : n = 0
  · simp [h0]
  · rw [if_neg h0, List.all_eq_true]
    intro c hc
    obtain ⟨d, hd, rfl⟩ := List.mem_map.mp hc
    exact digitChar_isDigit d (Nat.digits_lt_base (by norm_num) (List.mem_reverse.mp hd))

/-- A rendered natural number is never the empty string. -/
theorem natToDec_ne_nil (n : Nat) : natToDec n ≠ [] := by
  unfold natToDec
  by_cases h0 : n = 0
  · simp [h0]
  · rw [if_neg h0]
    intro hnil
    rw [List.map_eq_nil_iff, List.reverse_eq_nil_iff] at hnil
    exact Nat.digits_ne_nil_iff_ne_zero.mpr h0 hnil

/-- Folding the decimal step over rendered digit characters equals
folding it over the digits themselves. -/
theorem foldl_decCharVal_map (l : List Nat) (h : ∀ d ∈ l, d < 10) (a : Nat) :
    List.foldl (fun acc c => 10 * acc + decCharVal c) a (l.map Nat.digitChar)
      = List.foldl (fun acc d => 10 * acc + d) a l := by
  induction l generalizing a with
  | nil => rfl
  | cons d rest ih =>
    simp only [List.map_cons, List.foldl_cons]
    rw [decCharVal_digitChar d (h d (List.mem_cons_self d rest))]
    exact ih (fun x hx => h x (List.mem_cons_of_mem d hx)) _

/-- Most-significant-first folding of a little-endian digit list. -/
theorem foldl_digits_reverse (L : List Nat) (a : Nat) :
    List.foldl (fun acc d => 10 * acc + d) a L.reverse
      = a * 10 ^ L.length + Nat.ofDigits 10 L := by
  induction L generalizing a with
  | nil => simp
  | cons d rest ih =>
    rw [List.reverse_cons, List.foldl_append, ih]
    simp only [List.foldl_cons, List.foldl_nil, List.length_cons, Nat.ofDigits_cons]
    ring

/-- The parsers' digit fold recovers the rendered natural number. -/
theorem natToDec_foldl (n : Nat) :
    (natToDec n).foldl (fun a c => 10 * a + decCharVal c) 0 = n := by
  unfold natToDec
  by_cases h0 : n = 0
  · simp [h0, decCharVal]
  · rw [if_neg h0,
      foldl_decCharVal_map _ (fun d hd =>
        Nat.digits_lt_base (by norm_num) (List.mem_reverse.mp hd)),
      foldl_digits_reverse]
    simp [Nat.ofDigits_digits]

/-- Rendered naturals below `2^64` parse back via `ParseUint`. -/
theorem parseUint64_natToDec (n : Nat) (h : n < 2 ^ 64) :
    parseUint64 (natToDec n) = some n := by
  unfold parseUint64
  rw [if_neg (natToDec_ne_nil n), if_pos (natToDec_all_isDigit n)]
  dsimp only
  rw [natToDec_foldl, if_pos h]

/-- A nonempty all-digit string carries no sign. -/
theorem strSign_of_digits {s : GoStr} (h : s.all Char.isDigit = true) :
    strSign s = (false, s) := by
  cases s with
  | nil => rfl
  | cons c cs =>
    have hc : c.isDigit = true := by
      rw [List.all_eq_true] at h
      exact h c (List.mem_cons_self c cs)
    have hm : c ≠ '-' := by intro he; rw [he] at hc; exact absurd hc (by decide)
    have hp : c ≠ '+' := by intro he; rw [he] at hc; exact absurd hc (by decide)
    simp only [strSign]
    rw [if_neg hm, if_neg hp]

/-- A leading minus sign is consumed and negates. -/
theorem strSign_neg (rest : GoStr) : strSign ('-' :: rest) = (true, rest) := by
  simp [strSign]

/-- Rendered naturals below `2^63` parse back via `ParseInt`. -/
theorem parseInt64_natToDec (n : Nat) (h : n < 2 ^ 63) :
    parseInt64 (natToDec n) = some (n : Int) := by
  unfold parseInt64
  rw [strSign_of_digits (natToDec_all_isDigit n)]
  simp only []
  rw [if_neg (natToDec_ne_nil n), if_pos (natToDec_all_isDigit n), natToDec_foldl,
    if_pos (lt_trans h (by norm_num)), if_neg (show ¬(false = true) by decide), if_pos h]

/-- Rendered int64 values parse back via `ParseInt`. -/
theorem parseInt64_intToDec (t : Int) (hlo : -(2 ^ 63) ≤ t) (hhi : t < 2 ^ 63) :
    parseInt64 (intToDec t) = some t := by
  by_cases hneg : t < 0
  · have hmt : ((-t).toNat : Int) = -t := Int.toNat_of_nonneg (by omega)
    have hm63 : (-t).toNat ≤ 2 ^ 63 := by omega
    have hm64 : (-t).toNat < 2 ^ 64 := by omega
    unfold intToDec
    rw [if_pos hneg]
    unfold parseInt64
    rw [strSign_neg]
    simp only []
    rw [if_neg (natToDec_ne_nil _), if_pos (natToDec_all_isDigit _), natToDec_foldl,
      if_pos hm64, if_true, if_pos hm63, hmt]
    norm_num
  · have ht : (t.toNat : Int) = t := Int.toNat_of_nonneg (by omega)
    have h63 : t.toNat < 2 ^ 63 := by omega
    unfold intToDec
    rw [if_neg hneg, parseInt64_natToDec t.toNat h63, ht]

/-- Hex encoding of a byte string decodes back to the same bytes. -/
theorem hexDecode_hexEncode (b : Bytes) (h : ∀ x ∈ b, x < 256) :
    hexDecode (hexEncode b) = some b := by
  induction b with
  | nil => rfl
  | cons x rest ih =>
    have hx : x < 256 := h x (List.mem_cons_self x rest)
    have hdiv : x / 16 < 16 := by omega
    have hmod : x % 16 < 16 := Nat.mod_lt x (by norm_num)
    have hrest := ih (fun y hy => h y (List.mem_cons_of_mem x hy))
    show hexDecode (Nat.digitChar (x / 16) :: Nat.digitChar (x % 16) :: hexEncode rest)
      = some (x :: rest)
    unfold hexDecode
    rw [hexCharVal_digitChar _ hdiv, hexCharVal_digitChar _ hmod, hrest]
    show some ((16 * (x / 16) + x % 16) :: rest) = some (x :: rest)
    rw [Nat.div_add_mod]

/-- A non-empty hex literal starts with `"0x"`. -/
theorem goHasPfx_hexPfx_hexLiteral {b : Bytes} (h : b ≠ []) :
    goHasPfx hexPfx (goHexLiteral b) = true := by
  unfold goHexLiteral
  rw [if_neg h]
  show goHasPfx ['0', 'x'] ('0' :: 'x' :: hexEncode b) = true
  simp [goHasPfx]

/-- Trimming `"0x"` from a non-empty hex literal leaves the hex body. -/
theorem goTrimPfx_hexLiteral {b : Bytes} (h : b ≠ []) :
    goTrimPfx hexPfx (goHexLiteral b) = hexEncode b := by
  unfold goTrimPfx
  rw [goHasPfx_hexPfx_hexLiteral h, if_pos rfl]
  unfold goHexLiteral
  rw [if_neg h]
  rfl

/-- An all-digit string never starts with `"0x"` (its second character,
if any, is a digit and `'x'` is not). -/
theorem goHasPfx_hexPfx_of_digits {s : GoStr} (h : s.all Char.isDigit = true) :
    goHasPfx hexPfx s = false := by
  match s with
  | [] => rfl
  | [c] =>
    show goHasPfx ['0', 'x'] [c] = false
    simp [goHasPfx]
  | c1 :: c2 :: cs =>
    have hc2 : c2.isDigit = true := by
      rw [List.all_eq_true] at h
      exact h c2 (List.mem_cons_of_mem c1 (List.mem_cons_self c2 cs))
    have hx : ('x' == c2) = false := by
      rw [beq_eq_false_iff_ne]
      intro he
      rw [← he] at hc2
      exact absurd hc2 (by decide)
    show goHasPfx ['0', 'x'] (c1 :: c2 :: cs) = false
    simp [goHasPfx, hx]

/-- A rendered integer never starts with `"0x"`. -/
theorem goHasPfx_hexPfx_intToDec (t : Int) : goHasPfx hexPfx (intToDec t) = false := by
  unfold intToDec
  by_cases hneg : t < 0
  · rw [if_pos hneg]
    show goHasPfx ['0', 'x'] ('-' :: natToDec (-t).toNat) = false
    simp [goHasPfx]
  · rw [if_neg hneg]
    exact goHasPfx_hexPfx_of_digits (natToDec_all_isDigit _)

/-- Rendered non-zero naturals below `2^64` survive the decoder's
non-zero unsigned parse. -/
theorem parseNonZeroUint64_natToDec {n : Nat} (h64 : n < 2 ^ 64) (h0 : n ≠ 0) :
    parseNonZeroUint64 (natToDec n) = some n := by
  unfold parseNonZeroUint64
  rw [parseUint64_natToDec n h64]
  simp [h0]

/-- Rendered non-zero int64 values survive the decoder's non-zero signed
parse. -/
theorem parseNonZeroInt64_intToDec {t : Int} (hlo : -(2 ^ 63) ≤ t) (hhi : t < 2 ^ 63)
    (h0 : t ≠ 0) : parseNonZeroInt64 (intToDec t) = some t := by
  unfold parseNonZeroInt64
  rw [parseInt64_intToDec t hlo hhi]
  simp [h0]

/-- A failed signed parse also fails the non-zero signed parse. -/
theorem parseNonZeroInt64_of_none {s : GoStr} (h : parseInt64 s = none) :
    parseNonZeroInt64 s = none := by
  unfold parseNonZeroInt64
  rw [h]

/-- A failed unsigned parse also fails the non-zero unsigned parse. -/
theorem parseNonZeroUint64_of_none {s : GoStr} (h : parseUint64 s = none) :
    parseNonZeroUint64 s = none := by
  unfold parseNonZeroUint64
  rw [h]

/-- `"0"` is the only rendered natural that is the string `"0"`. -/
theorem natToDec_ne_zeroStr {n : Nat} (h64 : n < 2 ^ 64) (h0 : n ≠ 0) :
    natToDec n ≠ zeroStr := by
  intro he
  have h1 := parseUint64_natToDec n h64
  rw [he] at h1
  have h2 : parseUint64 zeroStr = some 0 := by decide
  rw [h2] at h1
  exact h0 (Option.some.inj h1).symm

/-- Under a key matching none of the five patterns, a rendered `uint64`
decodes back to the same unsigned integer. -/
theorem dbValToSpec_plain_natToDec (key : GoStr) (n : Nat)
    (hP : PlainKey key) (h64 : n < 2 ^ 64) :
    dbValToSpec key (natToDec n) = SpecValue.uint n := by
  obtain ⟨h1, h2, h3, h4, h5⟩ := hP
  unfold dbValToSpec
  rw [h1, h2, h3, h4, h5, goHasPfx_hexPfx_of_digits (natToDec_all_isDigit n)]
  simp only [Bool.false_eq_true, if_false, Bool.or_self]
  by_cases h0 : n = 0
  · subst h0
    rw [if_pos (show natToDec 0 = zeroStr from rfl)]
  · rw [if_neg (natToDec_ne_zeroStr h64 h0), parseNonZeroUint64_natToDec h64 h0]

/-- The Go duration computation is exact (no wrap) for second counts a
`time.Duration` can represent. -/
theorem goSecondsToDuration_of_le {s : Nat} (h : s ≤ maxDurationSeconds) :
    goSecondsToDuration s = (s : Int) * 1000000000 := by
  unfold goSecondsToDuration wrapInt64
  have h1 : s * 1000000000 < 2 ^ 63 := by
    have : maxDurationSeconds * 1000000000 < 2 ^ 63 := by decide
    calc s * 1000000000 ≤ maxDurationSeconds * 1000000000 := by
          exact Nat.mul_le_mul_right _ h
      _ < 2 ^ 63 := this
  rw [Nat.mod_eq_of_lt (lt_trans h1 (by norm_num)), if_pos h1]
  push_cast
  ring

/-- Under a duration key that matches no earlier rule's key pattern, a
rendered whole-second count decodes back to the duration
`time.Duration(s) * time.Second`. -/
theorem dbValToSpec_duration_natToDec (key : GoStr) (s : Nat)
    (h0 : 0 < s) (hmax : s ≤ maxDurationSeconds)
    (hDur : goHasPfx secondsPerPfx key = true ∨ goHasSfx delaySfx key = true)
    (hD : goHasPfx domainPfx key = false) (hF : goHasSfx forkVersionSfx key = false)
    (hT : goHasSfx timeSfx key = false) :
    dbValToSpec key (natToDec s) = SpecValue.duration (goSecondsToDuration s) := by
  have h64 : s < 2 ^ 64 := by
    have : maxDurationSeconds < 2 ^ 64 := by decide
    omega
  have hc : (goHasPfx secondsPerPfx key || goHasSfx delaySfx key) = true := by
    cases hDur with
    | inl h => simp [h]
    | inr h => simp [h]
  unfold dbValToSpec
  rw [hD, hF, hT, goHasPfx_hexPfx_of_digits (natToDec_all_isDigit s), hc]
  simp only [Bool.false_eq_true, if_false]
  rw [if_pos trivial, parseNonZeroUint64_natToDec h64 (Nat.pos_iff_ne_zero.mp h0)]

/-- Under a time key that matches no earlier rule's key pattern, a
rendered non-zero Unix-second count decodes back to the same timestamp. -/
theorem dbValToSpec_time_intToDec (key : GoStr) (t : Int)
    (h0 : t ≠ 0) (hlo : -(2 ^ 63) ≤ t) (hhi : t < 2 ^ 63)
    (hT : goHasSfx timeSfx key = true)
    (hD : goHasPfx domainPfx key = false) (hF : goHasSfx forkVersionSfx key = false) :
    dbValToSpec key (intToDec t) = SpecValue.time t := by
  unfold dbValToSpec
  rw [hD, hF, goHasPfx_hexPfx_intToDec t, hT]
  simp only [Bool.false_eq_true, if_false]
  rw [if_pos trivial, parseNonZeroInt64_intToDec hlo hhi h0]

/-- A non-empty hex literal of bytes decodes to the same byte content,
as a domain type, version, or plain byte string depending on the key
(4-byte content under the domain and fork-version key patterns). -/
theorem dbValToSpec_hexLiteral (key : GoStr) (b : Bytes) (hne : b ≠ [])
    (hlt : ∀ x ∈ b, x < 256)
    (h4d : goHasPfx domainPfx key = true → b.length = 4)
    (h4f : goHasSfx forkVersionSfx key = true → b.length = 4) :
    dbValToSpec key (goHexLiteral b) = SpecValue.domainType b ∨
    dbValToSpec key (goHexLiteral b) = SpecValue.version b ∨
    dbValToSpec key (goHexLiteral b) = SpecValue.bytes b := by
  have hdec : hexDecode (goTrimPfx hexPfx (goHexLiteral b)) = some b := by
    rw [goTrimPfx_hexLiteral hne]
    exact hexDecode_hexEncode b hlt
  unfold dbValToSpec
  cases hd : goHasPfx domainPfx key with
  | true =>
    left
    rw [if_pos rfl, hdec]
    show SpecValue.domainType (copyBytes 4 b) = SpecValue.domainType b
    rw [copyBytes_of_length (h4d hd)]
  | false =>
    simp only [Bool.false_eq_true, if_false]
    cases hf : goHasSfx forkVersionSfx key with
    | true =>
      right; left
      rw [if_pos rfl, hdec]
      show SpecValue.version (copyBytes 4 b) = SpecValue.version b
      rw [copyBytes_of_length (h4f hf)]
    | false =>
      right; right
      simp only [Bool.false_eq_true, if_false]
      rw [goHasPfx_hexPfx_hexLiteral hne, if_pos rfl, hdec]

/-- A stored string that is not hex, not a decimal integer, and not
`"0"` decodes to itself under every key. -/
theorem dbValToSpec_rawString (key s : GoStr)
    (hhex : hexDecode (goTrimPfx hexPfx s) = none)
    (hpi : parseInt64 s = none) (hpu : parseUint64 s = none) (hz : s ≠ zeroStr) :
    dbValToSpec key s = SpecValue.str s := by
  unfold dbValToSpec
  rw [hhex, parseNonZeroInt64_of_none hpi, parseNonZeroUint64_of_none hpu]
  simp only [ite_self]
  rw [if_neg hz]

/-- C2: for every supported type class (unsigned integer counter,
fixed-width or variable byte array, duration, timestamp, opaque string)
and every value within that class's representable, non-ambiguous range,
`Decode(key, Encode(key, value))` yields a value semantically equivalent
to `value` within its original type class. -/
theorem decode_encode_round_trip (key : GoStr) (v : SpecInput)
    (h : InRange key v) : SemEquiv v (dbValToSpec key (specToDbVal v)) := by
  cases v with
  | uintVal n =>
    obtain ⟨h64, hP⟩ := h
    simp only [specToDbVal]
    rw [dbValToSpec_plain_natToDec key n hP h64]
    exact rfl
  | bytesVal b =>
    obtain ⟨hne, hlt, h4d, h4f⟩ := h
    simp only [specToDbVal]
    rcases dbValToSpec_hexLiteral key b hne hlt h4d h4f with hc | hc | hc <;> rw [hc] <;> exact rfl
  | durationVal s =>
    obtain ⟨h0, hmax, hDur, hD, hF, hT⟩ := h
    simp only [specToDbVal]
    rw [dbValToSpec_duration_natToDec key s h0 hmax hDur hD hF hT]
    exact (goSecondsToDuration_of_le hmax).symm
  | timeVal t =>
    obtain ⟨h0, hlo, hhi, hT, hD, hF⟩ := h
    simp only [specToDbVal]
    rw [dbValToSpec_time_intToDec key t h0 hlo hhi hT hD hF]
    exact rfl
  | stringVal s =>
    obtain ⟨hhex, hpi, hpu, hz⟩ := h
    simp only [specToDbVal]
    rw [dbValToSpec_rawString key s hhex hpi hpu hz]
    exact rfl

/-- Witness for C2: one concrete in-range round trip per type class —
the counter 32 under `"SLOTS_PER_EPOCH"`, a 4-byte version under
`"GENESIS_FORK_VERSION"`, the 12-second duration under
`"SECONDS_PER_SLOT"`, the mainnet genesis timestamp under
`"GENESIS_TIME"`, and the opaque string `"mainnet"` under
`"PRESET_BASE"`. -/
theorem decode_encode_round_trip_witness :
    (InRange "SLOTS_PER_EPOCH".toList (.uintVal 32) ∧
      SemEquiv (.uintVal 32)
        (dbValToSpec "SLOTS_PER_EPOCH".toList (specToDbVal (.uintVal 32)))) ∧
    (InRange "GENESIS_FORK_VERSION".toList (.bytesVal [0, 0, 0, 0]) ∧
      SemEquiv (.bytesVal [0, 0, 0, 0])
        (dbValToSpec "GENESIS_FORK_VERSION".toList (specToDbVal (.bytesVal [0, 0, 0, 0])))) ∧
    (InRange "SECONDS_PER_SLOT".toList (.durationVal 12) ∧
      SemEquiv (.durationVal 12)
        (dbValToSpec "SECONDS_PER_SLOT".toList (specToDbVal (.durationVal 12)))) ∧
    (InRange "GENESIS_TIME".toList (.timeVal 1606824023) ∧
      SemEquiv (.timeVal 1606824023)
        (dbValToSpec "GENESIS_TIME".toList (specToDbVal (.timeVal 1606824023)))) ∧
    (InRange "PRESET_BASE".toList (.stringVal "mainnet".toList) ∧
      SemEquiv (.stringVal "mainnet".toList)
        (dbValToSpec "PRESET_BASE".toList (specToDbVal (.stringVal "mainnet".toList)))) :=
  ⟨⟨by decide, decode_encode_round_trip _ _ (by decide)⟩,
   ⟨by decide, decode_encode_round_trip _ _ (by decide)⟩,
   ⟨by decide, decode_encode_round_trip _ _ (by decide)⟩,
   ⟨by decide, decode_encode_round_trip _ _ (by decide)⟩,
   ⟨by decide, decode_encode_round_trip _ _ (by decide)⟩⟩
